import Mathlib

/-!
Verification of the batched minesweeper engine of `MinesweeperLearning`.

The sources embedded here are `src/game.py` together with
`src/utils.py` (the current package version of the engine) and the
legacy root-level `game.py`, whose `open_zero` is the recursive
zero-region cascade.

Arrays of shape `(n, rows, columns)` are modelled as curried functions
`Nat → Nat → Nat → _` (slot, row, column); only indices below the stated
bounds are meaningful.  Every numpy operation used by the sources acts
pointwise along the slot axis, so the batch dimension is simply carried
as the first argument.  Randomness (`np.random.default_rng`) is modelled
by explicit parameters: a permutation per slot for mine placement and a
rational-valued draw per cell for the zero-cell tie break.
-/

set_option autoImplicit false

/-- Endpoint of the Python slice `row[:j]` on a row of length `len`:
a negative `j` counts from the end of the row (clamped at `0`), a
non-negative `j` is clamped at `len`. -/
def pySliceEnd (j : Int) (len : Nat) : Nat :=
  if j < 0 then (len + j).toNat else min j.toNat len

/-- Model of `utils.random_binary_matrices((n, rows, columns), ones)`:
row `i` of the flat `(n, rows*columns)` matrix is initialised by
`m[i, :ones[i]] = 1` and then permuted in place by
`rng.permuted(m, axis=1)`.  The random permutation of row `i` is the
parameter `perm i`: entry `k` of the permuted row is entry `perm i k`
of the prefix-of-ones row, so cell `k` holds a one exactly when
`perm i k` falls inside the Python slice `[: ones[i]]`. -/
def random_binary_matrices (rows columns n : Nat) (ones : Nat → Int)
    (perm : Nat → Nat → Nat) : Nat → Nat → Nat → Bool :=
  fun i r c => decide (perm i (r * columns + c) < pySliceEnd (ones i) (rows * columns))

/-- The nine `(di, dj)` offsets enumerated, in order, by the nested
`for i in range(-1, 2): for j in range(-1, 2)` loops of the sources. -/
def offsets9 : List (Int × Int) :=
  [(-1, -1), (-1, 0), (-1, 1), (0, -1), (0, 0), (0, 1), (1, -1), (1, 0), (1, 1)]

/-- Entry `(a, b)` (0-based) of `np.pad(mines_i, [(1,1), (1,1)])` for one
slot, as an integer: the zero-padded mine mask. -/
def padMines (rows columns : Nat) (mine : Nat → Nat → Bool) (a b : Int) : Int :=
  if 1 ≤ a ∧ a ≤ (rows : Int) ∧ 1 ≤ b ∧ b ≤ (columns : Int) then
    (if mine (a - 1).toNat (b - 1).toNat then 1 else 0)
  else 0

/-- Model of `Game._compute_number_cells`: the number of a cell is the sum
of the nine shifted padded copies
(`grids += pad[:, 1+i:rows+1+i, 1+j:columns+1+j]`), after which mine cells
are overwritten with the sentinel (`grids[mines] = -1`). -/
def compute_number_cells (rows columns : Nat) (mines : Nat → Nat → Nat → Bool) :
    Nat → Nat → Nat → Int :=
  fun i r c =>
    if mines i r c then -1
    else (offsets9.map fun d =>
      padMines rows columns (mines i) ((r : Int) + 1 + d.1) ((c : Int) + 1 + d.2)).sum

/-- State of the package `Game`; one field per numpy array attribute. -/
structure Game where
  rows : Nat
  columns : Nat
  n : Nat
  mines_n : Nat → Int
  mines : Nat → Nat → Nat → Bool
  numbers : Nat → Nat → Nat → Int
  open_cells : Nat → Nat → Nat → Bool
  flags : Nat → Nat → Nat → Bool
  active_games : Nat → Bool
  won : Nat → Bool
  last_opened : Nat → Nat → Nat → Bool
  last_flagged : Nat → Nat → Nat → Bool

/-- Model of `Game.__init__(rows, columns, mines_n, n)`; `mines_n` is
already in per-slot form (`np.full(n, mines_n)` for a scalar argument). -/
def Game.init (rows columns : Nat) (mines_n : Nat → Int) (n : Nat)
    (perm : Nat → Nat → Nat) : Game :=
  { rows := rows
    columns := columns
    n := n
    mines_n := mines_n
    mines := random_binary_matrices rows columns n mines_n perm
    numbers := compute_number_cells rows columns
      (random_binary_matrices rows columns n mines_n perm)
    open_cells := fun _ _ _ => false
    flags := fun _ _ _ => false
    active_games := fun _ => true
    won := fun _ => false
    last_opened := fun _ _ _ => false
    last_flagged := fun _ _ _ => false }

/-- Position of slot `i` inside arrays compressed by the boolean-mask
indexing `arr[self.active_games]`: the number of active slots before `i`. -/
def cIdx (act : Nat → Bool) (i : Nat) : Nat :=
  ((List.range i).filter act).length

/-- Conjunction of a per-cell boolean over one board
(`np.all(..., axis=(1, 2))` for one slot). -/
def allCells (rows columns : Nat) (p : Nat → Nat → Bool) : Bool :=
  (List.range rows).all fun r => (List.range columns).all fun c => p r c

/-- One entry of `correct_open` in `Game.move`:
`not np.any(mines[active][k] * to_open[k])`, written for the slot `i`
whose compressed index is `k = cIdx active i`. -/
def Game.correct_open_at (g : Game) (to_open : Nat → Nat → Nat → Bool) (i : Nat) : Bool :=
  allCells g.rows g.columns fun r c =>
    ! (g.mines i r c && to_open (cIdx g.active_games i) r c)

/-- One entry of `correct_flag` in `Game.move`:
`not np.any((1 - mines[active][k]) * to_flag[k])`. -/
def Game.correct_flag_at (g : Game) (to_flag : Nat → Nat → Nat → Bool) (i : Nat) : Bool :=
  allCells g.rows g.columns fun r c =>
    ! (! g.mines i r c && to_flag (cIdx g.active_games i) r c)

/-- The per-slot verdict `correct = correct_open & correct_flag` of
`Game.move`, for a slot active at call time.  This is also the entry of
the boolean array returned by `move`. -/
def Game.correctAt (g : Game) (to_open to_flag : Nat → Nat → Nat → Bool) (i : Nat) : Bool :=
  g.correct_open_at to_open i && g.correct_flag_at to_flag i

/-- `self.active_games[self.active_games] = correct`: a slot remains
active after the verdict exactly if it was active and judged correct. -/
def Game.moveActive1 (g : Game) (to_open to_flag : Nat → Nat → Nat → Bool) (i : Nat) : Bool :=
  g.active_games i && g.correctAt to_open to_flag i

/-- `self.open_cells[self.active_games] = open_cells[active] | to_open[correct]`:
slots still active after the verdict merge their attempted reveal set;
all other slots keep their mask unchanged. -/
def Game.moveOpen (g : Game) (to_open to_flag : Nat → Nat → Nat → Bool) :
    Nat → Nat → Nat → Bool :=
  fun i r c =>
    if g.moveActive1 to_open to_flag i then
      g.open_cells i r c || to_open (cIdx g.active_games i) r c
    else g.open_cells i r c

/-- `self.flags[self.active_games] = flags[active] | to_flag[correct]`. -/
def Game.moveFlags (g : Game) (to_open to_flag : Nat → Nat → Nat → Bool) :
    Nat → Nat → Nat → Bool :=
  fun i r c =>
    if g.moveActive1 to_open to_flag i then
      g.flags i r c || to_flag (cIdx g.active_games i) r c
    else g.flags i r c

/-- `self.won = np.all(self.open_cells + self.mines, axis=(1, 2))`,
computed for every slot from the merged reveal masks. -/
def Game.moveWon (g : Game) (to_open to_flag : Nat → Nat → Nat → Bool) (i : Nat) : Bool :=
  allCells g.rows g.columns fun r c => g.moveOpen to_open to_flag i r c || g.mines i r c

/-- `self.active_games[self.won] = False`. -/
def Game.moveActive (g : Game) (to_open to_flag : Nat → Nat → Nat → Bool) (i : Nat) : Bool :=
  g.moveActive1 to_open to_flag i && ! g.moveWon to_open to_flag i

/-- Model of `Game.move(to_open, to_flag)`.  As in the source, the slot
axis of `to_open` and `to_flag` runs over the slots active at call time
(`self.mines[self.active_games] * to_open`), so both are indexed by the
compressed index `cIdx`. -/
def Game.move (g : Game) (to_open to_flag : Nat → Nat → Nat → Bool) : Game :=
  { g with
    last_opened := fun i r c =>
      if g.active_games i then to_open (cIdx g.active_games i) r c else g.last_opened i r c
    last_flagged := fun i r c =>
      if g.active_games i then to_flag (cIdx g.active_games i) r c else g.last_flagged i r c
    open_cells := g.moveOpen to_open to_flag
    flags := g.moveFlags to_open to_flag
    active_games := g.moveActive to_open to_flag
    won := g.moveWon to_open to_flag }

/-- Number of opened cells of slot `i` (`self.open_cells[i].sum()`). -/
def Game.openCount (g : Game) (i : Nat) : Nat :=
  (((Finset.range g.rows) ×ˢ (Finset.range g.columns)).filter fun rc =>
    g.open_cells i rc.1 rc.2 = true).card

/-- Number of mine cells of slot `i`. -/
def Game.mineCount (g : Game) (i : Nat) : Nat :=
  (((Finset.range g.rows) ×ˢ (Finset.range g.columns)).filter fun rc =>
    g.mines i rc.1 rc.2 = true).card

/-- Model of `Game.scores` for one slot:
`open_cells[i].sum() / (size - mines_n[i])`.  The numpy quotient is a
float; a zero denominator (`mines_n == size`) makes it an undefined
`0/0`, modelled as `none`.  The `final_only` mask only chooses which
slots are reported and does not change the per-slot value. -/
def Game.scoresAt (g : Game) (i : Nat) : Option ℚ :=
  if ((g.rows * g.columns : Nat) : Int) - g.mines_n i = 0 then none
  else some ((g.openCount i : ℚ) / (((g.rows * g.columns : Nat) : Int) - g.mines_n i : Int))

/-- Flat-index view of `self.numbers + 10 * self.mines` for slot `i`
(flat cell `k` is board cell `(k / columns, k % columns)`). -/
def Game.biasedAt (g : Game) (i k : Nat) : Int :=
  g.numbers i (k / g.columns) (k % g.columns) +
    10 * (if g.mines i (k / g.columns) (k % g.columns) then 1 else 0)

/-- `(self.numbers + 10 * self.mines).min(axis=(1, 2))` for slot `i`
(meaningful for a non-empty board, as in the source). -/
def Game.minBiased (g : Game) (i : Nat) : Int :=
  ((List.range (g.rows * g.columns)).map (g.biasedAt i)).foldl min (g.biasedAt i 0)

/-- First index of a maximum of `f` on `[0, size)` (`np.argmax` keeps the
first occurrence of the maximum). -/
def argmaxQ (f : Nat → ℚ) (size : Nat) : Nat :=
  (List.range size).foldl (fun best k => if f best < f k then k else best) 0

/-- The flat cell opened for slot `i` by the package `Game.open_zero`:
the argmax of `rng.random(shape) * (numbers == mins)`, the random draw
being the parameter `w`. -/
def Game.openZeroTarget (g : Game) (w : Nat → Nat → Nat → ℚ) (i : Nat) : Nat :=
  argmaxQ
    (fun k => w i (k / g.columns) (k % g.columns) *
      (if g.numbers i (k / g.columns) (k % g.columns) = g.minBiased i then 1 else 0))
    (g.rows * g.columns)

/-- Model of the package `Game.open_zero`: build the one-hot reveal mask
`to_open[arange(n), random_zero // columns, random_zero % columns] = 1`
and play it through `self.move(to_open)`.  The slot axis of `to_open`
coincides with the compressed active axis because the method is for use
while every slot is still active. -/
def Game.open_zero (g : Game) (w : Nat → Nat → Nat → ℚ) : Game :=
  g.move
    (fun j r c => decide (r = g.openZeroTarget w j / g.columns ∧
                          c = g.openZeroTarget w j % g.columns))
    (fun _ _ _ => false)

/-- No hazard cell of any slot is revealed. -/
def SafeGame (g : Game) : Prop :=
  ∀ i < g.n, ∀ r < g.rows, ∀ c < g.columns,
    g.mines i r c = true → g.open_cells i r c = false

/-- Specification side of claim C1: the verdict of `move` for a slot
active at call time, and its effect on that slot's state. -/
def MoveVerdictProp (g : Game) (to_open to_flag : Nat → Nat → Nat → Bool) (i : Nat) : Prop :=
  (g.correctAt to_open to_flag i = true ↔
    ((∀ r < g.rows, ∀ c < g.columns,
        to_open (cIdx g.active_games i) r c = true → g.mines i r c = false) ∧
     (∀ r < g.rows, ∀ c < g.columns,
        to_flag (cIdx g.active_games i) r c = true → g.mines i r c = true))) ∧
  (g.correctAt to_open to_flag i = false →
    ((g.move to_open to_flag).active_games i = false ∧
     ∀ r < g.rows, ∀ c < g.columns,
       (g.move to_open to_flag).open_cells i r c = g.open_cells i r c ∧
       (g.move to_open to_flag).flags i r c = g.flags i r c)) ∧
  (g.correctAt to_open to_flag i = true →
    ∀ r < g.rows, ∀ c < g.columns,
      (g.move to_open to_flag).open_cells i r c
        = (g.open_cells i r c || to_open (cIdx g.active_games i) r c) ∧
      (g.move to_open to_flag).flags i r c
        = (g.flags i r c || to_flag (cIdx g.active_games i) r c))

/-- Specification side of claim C2: in a game state, `won` holds for a
slot exactly when `revealed ∪ hazard` covers its whole board, and a won
slot is simultaneously inactive. -/
def WonCoversProp (g : Game) : Prop :=
  ∀ i < g.n,
    (g.won i = true ↔ ∀ r < g.rows, ∀ c < g.columns,
      (g.open_cells i r c || g.mines i r c) = true) ∧
    (g.won i = true → g.active_games i = false)

/-- The eight neighbour offsets of a cell. -/
def offsets8 : List (Int × Int) :=
  [(-1, -1), (-1, 0), (-1, 1), (0, -1), (0, 1), (1, -1), (1, 0), (1, 1)]

/-- Specification side of claim C5: the number of hazard cells among the
eight in-board neighbours of `(r, c)` (an out-of-board neighbour
contributes nothing). -/
def inBoardNeighborMineCount (rows columns : Nat) (mine : Nat → Nat → Bool) (r c : Nat) : Nat :=
  (offsets8.filter fun d =>
    decide (0 ≤ (r : Int) + d.1 ∧ (r : Int) + d.1 < (rows : Int) ∧
            0 ≤ (c : Int) + d.2 ∧ (c : Int) + d.2 < (columns : Int)) &&
    mine ((r : Int) + d.1).toNat ((c : Int) + d.2).toNat).length

/-- A draw of `rng.permuted` for one row: a bijection of `[0, size)`. -/
def PermOn (p : Nat → Nat) (size : Nat) : Prop :=
  (∀ k < size, p k < size) ∧ ∀ k < size, ∀ l < size, p k = p l → k = l

/-! ### A minimal memory model for numpy views (claim C8)

`Game.__getitem__` turns an `int` key into `slice(key, key+1)` and then
assigns `self.mines[key]`, `self.open_cells[key]`, ... to the fields of
the returned game.  Indexing a numpy array with a slice is *basic
slicing* and returns a view on the same underlying buffer; the in-place
updates performed later (`ndarray.fill` in `Game.reset`, boolean-mask
assignment in `Game.move`) therefore write through any such view into
the parent's buffer.  The handles below model exactly this. -/

/-- A pool of `(len, rows, columns)` boolean buffers, indexed by a buffer
identifier: the memory backing numpy arrays. -/
def Buffers : Type := Nat → Nat → Nat → Nat → Bool

/-- A numpy array handle for a `(len, rows, columns)` boolean array:
a buffer identifier, the offset of its first slot inside the buffer, and
its length along axis 0. -/
structure NpView where
  base : Nat
  start : Nat
  len : Nat

/-- Reading entry `(i, r, c)` of an array through its handle. -/
def NpView.read (bufs : Buffers) (v : NpView) (i r c : Nat) : Bool :=
  bufs v.base (v.start + i) r c

/-- `arr[a:b]` (numpy basic slicing along axis 0, endpoints clamped to
the length): the result is a new handle on the *same* buffer.  This is
what `Game.__getitem__` stores in every per-cell field of the game it
returns. -/
def NpView.sliceView (v : NpView) (a b : Nat) : NpView :=
  { base := v.base, start := v.start + min a v.len, len := min b v.len - min a v.len }

/-- `arr.fill(0)` (as used on `open_cells`, `flags`, ... by `Game.reset`):
an in-place write of zeros through the handle into the shared buffer. -/
def NpView.fill0 (bufs : Buffers) (v : NpView) : Buffers :=
  fun bid k r c =>
    if bid = v.base ∧ v.start ≤ k ∧ k < v.start + v.len then false else bufs bid k r c

/-! ### The legacy recursive zero-region cascade (root-level `game.py`)

`Game.open_zero` of the legacy engine pads `grids` and `states` with a
`-1` border, then repeatedly, for each of the nine offsets, takes the
shifted frontier, keeps the coordinates whose padded state is `0`, opens
them (`pad_state[t] = 1`) and recurses on those of them whose padded
grid value is `0`.  All numpy index arrays hold `(slot, row, col)`
triples and every operation is pointwise on triples, so distinct slots
never interact; the model below is the cascade of one slot.  The `score`
bookkeeping (`self.scores[t[0]] -= 1`) is not modelled: it never feeds
back into the recursion or into the state mask.

The source recursion has no fuel; here a fuel argument bounds the
nesting depth.  Every nested call is made only after at least one
previously closed interior cell has been opened, so any fuel exceeding
the number of closed cells yields the behaviour of the source. -/

/-- Entry `p` (0-based, padded coordinates) of
`np.pad(f, [(1,1), (1,1)], constant_values=-1)` for a board-shaped
integer array `f`.  Used for both `pad_grid` and `pad_state`. -/
def padI (rows columns : Nat) (f : Nat → Nat → Int) (p : Int × Int) : Int :=
  if 1 ≤ p.1 ∧ p.1 ≤ (rows : Int) ∧ 1 ≤ p.2 ∧ p.2 ≤ (columns : Int) then
    f (p.1 - 1).toNat (p.2 - 1).toNat
  else -1

/-- `pad_state[t] = 1`: the interior cells whose padded coordinates are
listed in `t` are opened (the filter producing `t` only ever retains
interior coordinates, since the border of `pad_state` is `-1`). -/
def markOpen (t : List (Int × Int)) (st : Nat → Nat → Int) : Nat → Nat → Int :=
  fun r c => if ((r : Int) + 1, (c : Int) + 1) ∈ t then 1 else st r c

/-- Body of the legacy cascade: the iteration over the remaining offsets
`offs` for the current frontier `c`, with `rcall` standing for the
recursive call on a fresh frontier of zeros. -/
def cascadeStep (rows columns : Nat) (grid : Nat → Nat → Int)
    (rcall : List (Int × Int) → (Nat → Nat → Int) → Nat → Nat → Int) :
    List (Int × Int) → List (Int × Int) → (Nat → Nat → Int) → Nat → Nat → Int
  | [], _, st => st
  | d :: offs, c, st =>
    let t := (c.map fun p => (p.1 + d.1, p.2 + d.2)).filter fun p =>
      decide (padI rows columns st p = 0)
    let st1 := markOpen t st
    let zs := t.filter fun p => decide (padI rows columns grid p = 0)
    cascadeStep rows columns grid rcall offs c (if zs.isEmpty then st1 else rcall zs st1)

/-- The legacy `Game.open_zero` recursion for one slot, fuelled. -/
def cascadeRec (rows columns : Nat) (grid : Nat → Nat → Int) :
    Nat → List (Int × Int) → (Nat → Nat → Int) → Nat → Nat → Int
  | 0, _, st => st
  | fuel + 1, c, st =>
    cascadeStep rows columns grid (cascadeRec rows columns grid fuel) offsets9 c st

/-- One invocation of the legacy cascade started at the padded coordinate
`start` on the board-shaped state mask `st` (`0` closed, `1` open).  The
fuel `rows * columns + 1` exceeds the number of closed cells of any
state, so the result agrees with the unbounded source recursion. -/
def cascadeFrom (rows columns : Nat) (grid : Nat → Nat → Int)
    (start : Int × Int) (st : Nat → Nat → Int) : Nat → Nat → Int :=
  cascadeRec rows columns grid (rows * columns + 1) [start] st

/-- Chebyshev (8-neighbourhood) adjacency of two padded coordinates; a
cell counts as adjacent to itself. -/
def zAdj (p q : Int × Int) : Prop :=
  -1 ≤ q.1 - p.1 ∧ q.1 - p.1 ≤ 1 ∧ -1 ≤ q.2 - p.2 ∧ q.2 - p.2 ≤ 1

/-- `ZPath rows columns grid s q`: the padded coordinate `q` is a
zero-valued cell 8-connected to `s` through zero-valued cells (`s`
itself must be zero-valued). -/
inductive ZPath (rows columns : Nat) (grid : Nat → Nat → Int) (s : Int × Int) :
    Int × Int → Prop
  | base : padI rows columns grid s = 0 → ZPath rows columns grid s s
  | step {q q' : Int × Int} : ZPath rows columns grid s q →
      padI rows columns grid q' = 0 → zAdj q q' → ZPath rows columns grid s q'

/-- Number of closed interior cells of a state mask. -/
def closedCount (rows columns : Nat) (st : Nat → Nat → Int) : Nat :=
  (((Finset.range rows) ×ˢ (Finset.range columns)).filter fun rc => st rc.1 rc.2 = 0).card

/-- The interior of a state mask takes only the values `0` and `1`. -/
def Inv01 (rows columns : Nat) (st : Nat → Nat → Int) : Prop :=
  ∀ r < rows, ∀ c < columns, st r c = 0 ∨ st r c = 1

/-- A state mask with no cell revealed yet. -/
def FreshState (rows columns : Nat) (st : Nat → Nat → Int) : Prop :=
  ∀ r < rows, ∀ c < columns, st r c = 0

/-- A padded coordinate lying in the board interior. -/
abbrev inPadB (rows columns : Nat) (p : Int × Int) : Prop :=
  1 ≤ p.1 ∧ p.1 ≤ (rows : Int) ∧ 1 ≤ p.2 ∧ p.2 ≤ (columns : Int)

/-- The list `t` of one offset iteration of the legacy cascade: the
frontier shifted by `d`, restricted to coordinates whose padded state is
`0` (`to_open = pad_state[t] == 0`). -/
def stepT (rows columns : Nat) (st : Nat → Nat → Int) (d : Int × Int)
    (c : List (Int × Int)) : List (Int × Int) :=
  (c.map fun p => (p.1 + d.1, p.2 + d.2)).filter fun p =>
    decide (padI rows columns st p = 0)

/-- The state after one offset iteration of the legacy cascade: open the
cells of `t`, then recurse on the newly opened zeros when there are any. -/
def stepNext (rows columns : Nat) (grid : Nat → Nat → Int)
    (rcall : List (Int × Int) → (Nat → Nat → Int) → Nat → Nat → Int)
    (d : Int × Int) (c : List (Int × Int)) (st : Nat → Nat → Int) : Nat → Nat → Int :=
  let t := stepT rows columns st d c
  let st1 := markOpen t st
  let zs := t.filter fun p => decide (padI rows columns grid p = 0)
  if zs.isEmpty then st1 else rcall zs st1

/-! ### Concrete instances used by the witnesses and counterexamples -/

/-- A 2x2 one-mine game (identity permutation: the mine sits at cell
`(0, 0)`). -/
def gameA : Game := Game.init 2 2 (fun _ => 1) 1 (fun _ k => k)

/-- A fully mined 1x1 game. -/
def gameFull : Game := Game.init 1 1 (fun _ => 1) 1 (fun _ k => k)

/-- A 1x2 game whose construction requests 3 mines on a 2-cell board. -/
def gameBad : Game := Game.init 1 2 (fun _ => 3) 1 (fun _ k => k)

/-- A buffer pool whose buffer `0` holds an all-ones `(2, 1, 1)` array:
the `open_cells` store of a 2-slot parent game in which every cell has
been revealed. -/
def bufsOnes : Buffers := fun _ _ _ _ => true

/-- The parent game's `open_cells` handle on buffer `0`. -/
def parentOpen : NpView := { base := 0, start := 0, len := 2 }

/-- The all-zero 3x3 grid: a board with no hazards, every cell's number
is `0`. -/
def gridZero3 : Nat → Nat → Int := fun _ _ => 0

/-- A 3x3 state mask whose middle column is already revealed. -/
def stMidCol : Nat → Nat → Int := fun _ c => if c = 1 then 1 else 0

/-- The all-closed 3x3 state mask. -/
def stZero3 : Nat → Nat → Int := fun _ _ => 0

/-! ### Basic lemmas about the move machinery -/

theorem allCells_eq_true_iff {rows columns : Nat} {p : Nat → Nat → Bool} :
    allCells rows columns p = true ↔ ∀ r < rows, ∀ c < columns, p r c = true := by
  simp [allCells, List.all_eq_true, List.mem_range]

theorem not_and_left_iff (a b : Bool) : (!(a && b)) = true ↔ (b = true → a = false) := by
  cases a <;> cases b <;> simp

theorem not_notand_iff (a b : Bool) : (!(!a && b)) = true ↔ (b = true → a = true) := by
  cases a <;> cases b <;> simp

theorem correctAt_iff (g : Game) (to_open to_flag : Nat → Nat → Nat → Bool) (i : Nat) :
    g.correctAt to_open to_flag i = true ↔
      ((∀ r < g.rows, ∀ c < g.columns,
          to_open (cIdx g.active_games i) r c = true → g.mines i r c = false) ∧
       (∀ r < g.rows, ∀ c < g.columns,
          to_flag (cIdx g.active_games i) r c = true → g.mines i r c = true)) := by
  unfold Game.correctAt Game.correct_open_at Game.correct_flag_at
  rw [Bool.and_eq_true, allCells_eq_true_iff, allCells_eq_true_iff]
  simp only [not_and_left_iff]
  simp

/-- Claim C1: for a slot active at call time, `move` judges it correct
exactly when its reveal request contains no hazard cell and its mark
request contains no non-hazard cell; an incorrect slot is deactivated
with its `revealed`/`marked` masks left unchanged, while a correct slot
gets the requests merged in by union. -/
theorem claim_c1_move_verdict (g : Game) (to_open to_flag : Nat → Nat → Nat → Bool)
    (i : Nat) (hn : i < g.n) (hact : g.active_games i = true) :
    MoveVerdictProp g to_open to_flag i := by
  refine ⟨correctAt_iff g to_open to_flag i, fun hbad => ?_, fun hok => ?_⟩
  · refine ⟨?_, fun r hr c hc => ?_⟩
    · simp [Game.move, Game.moveActive, Game.moveActive1, hbad]
    · constructor <;>
        simp [Game.move, Game.moveOpen, Game.moveFlags, Game.moveActive1, hbad]
  · intro r hr c hc
    constructor <;>
      simp [Game.move, Game.moveOpen, Game.moveFlags, Game.moveActive1, hact, hok]

theorem claim_c1_move_verdict_witness :
    0 < gameA.n ∧ gameA.active_games 0 = true ∧
      MoveVerdictProp gameA (fun _ _ _ => false) (fun _ _ _ => false) 0 :=
  ⟨by decide, by decide,
    claim_c1_move_verdict gameA (fun _ _ _ => false) (fun _ _ _ => false) 0
      (by decide) (by decide)⟩

theorem move_wonCovers (g : Game) (to_open to_flag : Nat → Nat → Nat → Bool) :
    WonCoversProp (g.move to_open to_flag) := by
  intro i _
  constructor
  · simp [Game.move, Game.moveWon, allCells_eq_true_iff]
  · intro hw
    have hW : g.moveWon to_open to_flag i = true := by
      simpa [Game.move] using hw
    simp [Game.move, Game.moveActive, hW]

/-- Claim C2: after every `move` (and after the package `open_zero`,
which is implemented through `move`), `won[i]` holds for every slot of
the batch exactly when `revealed ∪ hazard` covers slot `i`'s whole
board, and every won slot is simultaneously inactive. -/
theorem claim_c2_won_iff_covered (g : Game) (to_open to_flag : Nat → Nat → Nat → Bool)
    (w : Nat → Nat → Nat → ℚ) :
    WonCoversProp (g.move to_open to_flag) ∧ WonCoversProp (g.open_zero w) :=
  ⟨move_wonCovers g to_open to_flag, move_wonCovers g _ _⟩

theorem claim_c2_won_iff_covered_witness :
    WonCoversProp (gameA.move (fun _ _ _ => false) (fun _ _ _ => false)) ∧
      WonCoversProp (gameA.open_zero fun _ _ _ => 0) :=
  claim_c2_won_iff_covered gameA (fun _ _ _ => false) (fun _ _ _ => false) (fun _ _ _ => 0)

theorem move_preserves_safe (g : Game) (to_open to_flag : Nat → Nat → Nat → Bool)
    (h : SafeGame g) : SafeGame (g.move to_open to_flag) := by
  intro i hi r hr c hc hm
  have hm' : g.mines i r c = true := by simpa [Game.move] using hm
  have hr' : r < g.rows := by simpa [Game.move] using hr
  have hc' : c < g.columns := by simpa [Game.move] using hc
  have hi' : i < g.n := by simpa [Game.move] using hi
  show g.moveOpen to_open to_flag i r c = false
  by_cases ha : g.moveActive1 to_open to_flag i = true
  · have hcor : g.correctAt to_open to_flag i = true := by
      have := ha
      simp [Game.moveActive1] at this
      exact this.2
    have hno : to_open (cIdx g.active_games i) r c = true → g.mines i r c = false :=
      ((correctAt_iff g to_open to_flag i).mp hcor).1 r hr' c hc'
    have hto : to_open (cIdx g.active_games i) r c = false := by
      cases hx : to_open (cIdx g.active_games i) r c
      · rfl
      · exact absurd hm' (by simp [hno hx])
    simp [Game.moveOpen, ha, hto, h i hi' r hr' c hc' hm']
  · simp [Game.moveOpen, ha, h i hi' r hr' c hc' hm']

/-- Claim C3: the package `open_zero` never sets `revealed` on a hazard
cell, whatever board the batch holds (fully mined boards included) and
whatever cell its biased-minimum/argmax selection picks: it plays its
one-hot request through `move`, whose verdict refuses to merge any
reveal set that touches a hazard. -/
theorem claim_c3_cascade_safe (g : Game) (w : Nat → Nat → Nat → ℚ)
    (h : SafeGame g) : SafeGame (g.open_zero w) :=
  move_preserves_safe g _ _ h

theorem claim_c3_cascade_safe_witness :
    SafeGame gameFull ∧ SafeGame (gameFull.open_zero fun _ _ _ => 0) :=
  ⟨by unfold SafeGame; decide,
    claim_c3_cascade_safe gameFull (fun _ _ _ => 0) (by unfold SafeGame; decide)⟩

/-- Claim C9: repeating on a still-active slot a reveal/mark request that
a previous accepted move already merged leaves `revealed` and `marked`
unchanged (merging is a set union), and the slot is again judged
correct. -/
theorem claim_c9_move_idempotent (g : Game) (to_open to_flag : Nat → Nat → Nat → Bool)
    (i : Nat) (hact : g.active_games i = true)
    (hsubO : ∀ r < g.rows, ∀ c < g.columns,
      to_open (cIdx g.active_games i) r c = true → g.open_cells i r c = true)
    (hsubF : ∀ r < g.rows, ∀ c < g.columns,
      to_flag (cIdx g.active_games i) r c = true → g.flags i r c = true)
    (hO : ∀ r < g.rows, ∀ c < g.columns,
      to_open (cIdx g.active_games i) r c = true → g.mines i r c = false)
    (hF : ∀ r < g.rows, ∀ c < g.columns,
      to_flag (cIdx g.active_games i) r c = true → g.mines i r c = true) :
    g.correctAt to_open to_flag i = true ∧
    ∀ r < g.rows, ∀ c < g.columns,
      (g.move to_open to_flag).open_cells i r c = g.open_cells i r c ∧
      (g.move to_open to_flag).flags i r c = g.flags i r c := by
  have hcor : g.correctAt to_open to_flag i = true :=
    (correctAt_iff g to_open to_flag i).mpr ⟨hO, hF⟩
  have ha1 : g.moveActive1 to_open to_flag i = true := by
    simp [Game.moveActive1, hact, hcor]
  refine ⟨hcor, fun r hr c hc => ⟨?_, ?_⟩⟩
  · show g.moveOpen to_open to_flag i r c = g.open_cells i r c
    cases hto : to_open (cIdx g.active_games i) r c
    · simp [Game.moveOpen, ha1, hto]
    · simp [Game.moveOpen, ha1, hto, hsubO r hr c hc hto]
  · show g.moveFlags to_open to_flag i r c = g.flags i r c
    cases htf : to_flag (cIdx g.active_games i) r c
    · simp [Game.moveFlags, ha1, htf]
    · simp [Game.moveFlags, ha1, htf, hsubF r hr c hc htf]

theorem claim_c9_move_idempotent_witness :
    gameA.active_games 0 = true ∧
    (gameA.correctAt (fun _ _ _ => false) (fun _ _ _ => false) 0 = true ∧
     ∀ r < gameA.rows, ∀ c < gameA.columns,
       (gameA.move (fun _ _ _ => false) (fun _ _ _ => false)).open_cells 0 r c
         = gameA.open_cells 0 r c ∧
       (gameA.move (fun _ _ _ => false) (fun _ _ _ => false)).flags 0 r c
         = gameA.flags 0 r c) :=
  ⟨by decide,
    claim_c9_move_idempotent gameA (fun _ _ _ => false) (fun _ _ _ => false) 0
      (by decide)
      (fun r _ c _ h => by cases h) (fun r _ c _ h => by cases h)
      (fun r _ c _ h => by cases h) (fun r _ c _ h => by cases h)⟩

theorem cell_flat_lt {rows columns r c : Nat} (hr : r < rows) (hc : c < columns) :
    r * columns + c < rows * columns :=
  calc r * columns + c < r * columns + columns := by omega
    _ = (r + 1) * columns := by ring
    _ ≤ rows * columns := Nat.mul_le_mul_right columns hr

theorem init_mines_full {rows columns n : Nat} {mines_n : Nat → Int}
    {perm : Nat → Nat → Nat} {i : Nat}
    (hperm : ∀ k < rows * columns, perm i k < rows * columns)
    (hfull : mines_n i = ((rows * columns : Nat) : Int)) :
    ∀ r < rows, ∀ c < columns,
      (Game.init rows columns mines_n n perm).mines i r c = true := by
  intro r hr c hc
  have hk : r * columns + c < rows * columns := cell_flat_lt hr hc
  have hend : pySliceEnd (mines_n i) (rows * columns) = rows * columns := by
    rw [hfull]
    unfold pySliceEnd
    rw [if_neg (not_lt.mpr (Int.natCast_nonneg _)), Int.toNat_natCast, min_self]
  simp only [Game.init, random_binary_matrices, hend, decide_eq_true_eq]
  exact hperm _ hk

/-- Claim C10: a slot generated with hazard count equal to the board size
starts with `won = false` and `active = true` even though
`revealed ∪ hazard` already covers its board; only the first `move` on
the batch (an empty request included) recomputes `won`, winning and
deactivating the slot. -/
theorem claim_c10_full_mine_start (rows columns n : Nat) (mines_n : Nat → Int)
    (perm : Nat → Nat → Nat) (i : Nat)
    (hperm : ∀ k < rows * columns, perm i k < rows * columns)
    (hfull : mines_n i = ((rows * columns : Nat) : Int)) :
    (Game.init rows columns mines_n n perm).won i = false ∧
    (Game.init rows columns mines_n n perm).active_games i = true ∧
    (∀ r < rows, ∀ c < columns,
      ((Game.init rows columns mines_n n perm).open_cells i r c ||
        (Game.init rows columns mines_n n perm).mines i r c) = true) ∧
    ((Game.init rows columns mines_n n perm).move
        (fun _ _ _ => false) (fun _ _ _ => false)).won i = true ∧
    ((Game.init rows columns mines_n n perm).move
        (fun _ _ _ => false) (fun _ _ _ => false)).active_games i = false := by
  set g := Game.init rows columns mines_n n perm with hg
  have hmine : ∀ r < rows, ∀ c < columns, g.mines i r c = true :=
    init_mines_full hperm hfull
  have hrows : g.rows = rows := rfl
  have hcols : g.columns = columns := rfl
  have hwon : g.moveWon (fun _ _ _ => false) (fun _ _ _ => false) i = true := by
    rw [Game.moveWon, allCells_eq_true_iff]
    intro r hr c hc
    simp [hmine r hr c hc]
  refine ⟨rfl, rfl, ?_, ?_, ?_⟩
  · intro r hr c hc
    simp [hmine r hr c hc]
  · show g.moveWon (fun _ _ _ => false) (fun _ _ _ => false) i = true
    exact hwon
  · show g.moveActive (fun _ _ _ => false) (fun _ _ _ => false) i = false
    simp [Game.moveActive, hwon]

theorem claim_c10_full_mine_start_witness :
    (gameFull.won 0 = false ∧
     gameFull.active_games 0 = true ∧
     (∀ r < 1, ∀ c < 1, (gameFull.open_cells 0 r c || gameFull.mines 0 r c) = true) ∧
     (gameFull.move (fun _ _ _ => false) (fun _ _ _ => false)).won 0 = true ∧
     (gameFull.move (fun _ _ _ => false) (fun _ _ _ => false)).active_games 0 = false) :=
  claim_c10_full_mine_start 1 1 1 (fun _ => 1) (fun _ k => k) 0
    (by decide) (by decide)

/-! ### Counting mines (claims C5 and C7) -/

theorem pySliceEnd_le (j : Int) (len : Nat) : pySliceEnd j len ≤ len := by
  unfold pySliceEnd
  split <;> omega

theorem card_filter_perm_lt {p : Nat → Nat} {size m : Nat}
    (hp : PermOn p size) (hm : m ≤ size) :
    ((Finset.range size).filter fun k => p k < m).card = m := by
  obtain ⟨hmap, hinj⟩ := hp
  have hinj' : ∀ a ∈ Finset.range size, ∀ b ∈ Finset.range size, p a = p b → a = b :=
    fun a ha b hb hab =>
      hinj a (Finset.mem_range.mp ha) b (Finset.mem_range.mp hb) hab
  have himg : (Finset.range size).image p = Finset.range size := by
    apply Finset.eq_of_subset_of_card_le
    · intro x hx
      obtain ⟨k, hk, rfl⟩ := Finset.mem_image.mp hx
      exact Finset.mem_range.mpr (hmap k (Finset.mem_range.mp hk))
    · rw [Finset.card_image_of_injOn fun a ha b hb hab =>
        hinj' a (Finset.mem_coe.mp ha) b (Finset.mem_coe.mp hb) hab]
  have hAinj : Set.InjOn p ((Finset.range size).filter fun k => p k < m) := by
    intro a ha b hb hab
    have ha' := (Finset.mem_filter.mp (Finset.mem_coe.mp ha)).1
    have hb' := (Finset.mem_filter.mp (Finset.mem_coe.mp hb)).1
    exact hinj' a ha' b hb' hab
  have hAimg : ((Finset.range size).filter fun k => p k < m).image p = Finset.range m := by
    ext x
    constructor
    · intro hx
      obtain ⟨k, hk, rfl⟩ := Finset.mem_image.mp hx
      exact Finset.mem_range.mpr (Finset.mem_filter.mp hk).2
    · intro hx
      have hx' : x ∈ (Finset.range size).image p := by
        rw [himg]
        exact Finset.mem_range.mpr (lt_of_lt_of_le (Finset.mem_range.mp hx) hm)
      obtain ⟨k, hk, rfl⟩ := Finset.mem_image.mp hx'
      exact Finset.mem_image.mpr
        ⟨k, Finset.mem_filter.mpr ⟨hk, Finset.mem_range.mp hx⟩, rfl⟩
  calc ((Finset.range size).filter fun k => p k < m).card
      = (((Finset.range size).filter fun k => p k < m).image p).card :=
        (Finset.card_image_of_injOn hAinj).symm
    _ = m := by rw [hAimg, Finset.card_range]

theorem flat_pair_inj {columns a1 a2 b1 b2 : Nat} (h2a : a2 < columns) (h2b : b2 < columns)
    (h : a1 * columns + a2 = b1 * columns + b2) : a1 = b1 ∧ a2 = b2 := by
  rcases Nat.lt_trichotomy a1 b1 with hlt | heq | hgt
  · exfalso
    have h1 : (a1 + 1) * columns ≤ b1 * columns :=
      Nat.mul_le_mul_right columns (Nat.succ_le_of_lt hlt)
    have h2 : (a1 + 1) * columns = a1 * columns + columns := by ring
    linarith
  · subst heq
    exact ⟨rfl, Nat.add_left_cancel h⟩
  · exfalso
    have h1 : (b1 + 1) * columns ≤ a1 * columns :=
      Nat.mul_le_mul_right columns (Nat.succ_le_of_lt hgt)
    have h2 : (b1 + 1) * columns = b1 * columns + columns := by ring
    linarith

theorem card_filter_prod_flat (rows columns : Nat) (P : Nat → Prop) [DecidablePred P] :
    (((Finset.range rows) ×ˢ (Finset.range columns)).filter fun rc =>
        P (rc.1 * columns + rc.2)).card
      = ((Finset.range (rows * columns)).filter fun k => P k).card := by
  rcases Nat.eq_zero_or_pos columns with hc | hc
  · subst hc
    simp
  · apply Finset.card_bij (fun rc _ => rc.1 * columns + rc.2)
    · intro rc hrc
      obtain ⟨hmem, hp⟩ := Finset.mem_filter.mp hrc
      obtain ⟨h1, h2⟩ := Finset.mem_product.mp hmem
      exact Finset.mem_filter.mpr
        ⟨Finset.mem_range.mpr (cell_flat_lt (Finset.mem_range.mp h1) (Finset.mem_range.mp h2)), hp⟩
    · intro a ha b hb hab
      obtain ⟨hma, _⟩ := Finset.mem_filter.mp ha
      obtain ⟨_, ha2⟩ := Finset.mem_product.mp hma
      obtain ⟨hmb, _⟩ := Finset.mem_filter.mp hb
      obtain ⟨_, hb2⟩ := Finset.mem_product.mp hmb
      obtain ⟨e1, e2⟩ :=
        flat_pair_inj (Finset.mem_range.mp ha2) (Finset.mem_range.mp hb2) hab
      exact Prod.ext e1 e2
    · intro k hk
      obtain ⟨hkr, hkp⟩ := Finset.mem_filter.mp hk
      have hklt := Finset.mem_range.mp hkr
      have hdiv : k / columns < rows := by
        rw [Nat.div_lt_iff_lt_mul hc]
        exact hklt
      have hflat : (k / columns) * columns + k % columns = k := by
        rw [Nat.mul_comm]
        exact Nat.div_add_mod k columns
      refine ⟨(k / columns, k % columns), ?_, ?_⟩
      · apply Finset.mem_filter.mpr
        refine ⟨Finset.mem_product.mpr ⟨Finset.mem_range.mpr hdiv,
          Finset.mem_range.mpr (Nat.mod_lt _ hc)⟩, ?_⟩
        show P ((k / columns) * columns + k % columns)
        rw [hflat]
        exact hkp
      · exact hflat

theorem mineCount_init (rows columns n : Nat) (mines_n : Nat → Int)
    (perm : Nat → Nat → Nat) (i : Nat) (hp : PermOn (perm i) (rows * columns)) :
    (Game.init rows columns mines_n n perm).mineCount i
      = pySliceEnd (mines_n i) (rows * columns) := by
  have step1 : (Game.init rows columns mines_n n perm).mineCount i
      = (((Finset.range rows) ×ˢ (Finset.range columns)).filter fun rc =>
          perm i (rc.1 * columns + rc.2) < pySliceEnd (mines_n i) (rows * columns)).card := by
    unfold Game.mineCount
    congr 1
    apply Finset.filter_congr
    intro rc _
    simp [Game.init, random_binary_matrices]
  rw [step1,
    card_filter_prod_flat rows columns
      (fun k => perm i k < pySliceEnd (mines_n i) (rows * columns)),
    card_filter_perm_lt hp (pySliceEnd_le _ _)]

/-! ### Neighbour counts (claim C5) -/

theorem list_sum_map_ite {α : Type} (l : List α) (p : α → Bool) :
    (l.map fun d => if p d then (1 : Int) else 0).sum = ((l.filter p).length : Int) := by
  induction l with
  | nil => simp
  | cons a t ih =>
    simp only [List.map_cons, List.sum_cons, List.filter_cons, ih]
    by_cases h : p a = true
    · simp [h]
      ring
    · simp [h]

theorem padMines_shift (rows columns : Nat) (m : Nat → Nat → Bool) (r c : Nat) (d : Int × Int) :
    padMines rows columns m ((r : Int) + 1 + d.1) ((c : Int) + 1 + d.2)
      = if (decide (0 ≤ (r : Int) + d.1 ∧ (r : Int) + d.1 < (rows : Int) ∧
              0 ≤ (c : Int) + d.2 ∧ (c : Int) + d.2 < (columns : Int)) &&
            m ((r : Int) + d.1).toNat ((c : Int) + d.2).toNat) = true then 1 else 0 := by
  unfold padMines
  have e1 : (r : Int) + 1 + d.1 - 1 = (r : Int) + d.1 := by ring
  have e2 : (c : Int) + 1 + d.2 - 1 = (c : Int) + d.2 := by ring
  by_cases hb : 0 ≤ (r : Int) + d.1 ∧ (r : Int) + d.1 < (rows : Int) ∧
      0 ≤ (c : Int) + d.2 ∧ (c : Int) + d.2 < (columns : Int)
  · rw [if_pos (by omega), e1, e2]
    simp [hb]
  · rw [if_neg (by omega)]
    simp [hb]

theorem offsets9_perm : offsets9.Perm (((0 : Int), (0 : Int)) :: offsets8) := by
  have h := @List.perm_middle (Int × Int) ((0 : Int), (0 : Int))
    [((-1 : Int), (-1 : Int)), (-1, 0), (-1, 1), (0, -1)]
    [((0 : Int), (1 : Int)), (1, -1), (1, 0), (1, 1)]
  simpa [offsets9, offsets8] using h

theorem numbers_eq_neighborCount (rows columns : Nat) (mines : Nat → Nat → Nat → Bool)
    (i r c : Nat) (hm : mines i r c = false) :
    compute_number_cells rows columns mines i r c
      = (inBoardNeighborMineCount rows columns (mines i) r c : Int) := by
  unfold compute_number_cells
  rw [if_neg (by simp [hm])]
  rw [(offsets9_perm.map fun d =>
    padMines rows columns (mines i) ((r : Int) + 1 + d.1) ((c : Int) + 1 + d.2)).sum_eq]
  rw [List.map_cons, List.sum_cons]
  have hcenter : padMines rows columns (mines i) ((r : Int) + 1 + 0) ((c : Int) + 1 + 0) = 0 := by
    have h := padMines_shift rows columns (mines i) r c (0, 0)
    simpa [hm] using h
  rw [hcenter, zero_add]
  have hmap : (offsets8.map fun d =>
      padMines rows columns (mines i) ((r : Int) + 1 + d.1) ((c : Int) + 1 + d.2))
      = offsets8.map fun d =>
        if (decide (0 ≤ (r : Int) + d.1 ∧ (r : Int) + d.1 < (rows : Int) ∧
              0 ≤ (c : Int) + d.2 ∧ (c : Int) + d.2 < (columns : Int)) &&
            mines i ((r : Int) + d.1).toNat ((c : Int) + d.2).toNat) = true then 1 else 0 :=
    List.map_congr_left fun d _ => padMines_shift rows columns (mines i) r c d
  rw [hmap, list_sum_map_ite]
  rfl

/-- Claim C5: in a generated batch, every slot holds exactly its
requested hazard count of hazard cells, `neighborCount` is the sentinel
`-1` at every hazard cell, and at every non-hazard cell it equals the
exact number of hazard cells among its eight in-board neighbours. -/
theorem claim_c5_generator_counts (rows columns n : Nat) (mines_n : Nat → Int)
    (perm : Nat → Nat → Nat) (i : Nat)
    (hp : PermOn (perm i) (rows * columns))
    (h0 : 0 ≤ mines_n i) (hle : mines_n i ≤ ((rows * columns : Nat) : Int)) :
    (Game.init rows columns mines_n n perm).mineCount i = (mines_n i).toNat ∧
    (∀ r < rows, ∀ c < columns,
      (Game.init rows columns mines_n n perm).mines i r c = true →
        (Game.init rows columns mines_n n perm).numbers i r c = -1) ∧
    (∀ r < rows, ∀ c < columns,
      (Game.init rows columns mines_n n perm).mines i r c = false →
        (Game.init rows columns mines_n n perm).numbers i r c
          = (inBoardNeighborMineCount rows columns
              ((Game.init rows columns mines_n n perm).mines i) r c : Int)) := by
  refine ⟨?_, ?_, ?_⟩
  · rw [mineCount_init rows columns n mines_n perm i hp]
    unfold pySliceEnd
    rw [if_neg (not_lt.mpr h0)]
    omega
  · intro r _ c _ hmine
    show compute_number_cells rows columns
      (random_binary_matrices rows columns n mines_n perm) i r c = -1
    unfold compute_number_cells
    rw [if_pos (show random_binary_matrices rows columns n mines_n perm i r c = true from hmine)]
  · intro r _ c _ hmine
    exact numbers_eq_neighborCount rows columns _ i r c hmine

theorem claim_c5_generator_counts_witness :
    PermOn (fun k => k) (2 * 2) ∧
    (gameA.mineCount 0 = ((1 : Int)).toNat ∧
     (∀ r < 2, ∀ c < 2, gameA.mines 0 r c = true → gameA.numbers 0 r c = -1) ∧
     (∀ r < 2, ∀ c < 2, gameA.mines 0 r c = false →
        gameA.numbers 0 r c = (inBoardNeighborMineCount 2 2 (gameA.mines 0) r c : Int))) :=
  ⟨by unfold PermOn; decide,
    claim_c5_generator_counts 2 2 1 (fun _ => 1) (fun _ k => k) 0
      (by unfold PermOn; decide) (by decide) (by decide)⟩

/-! ### Scoring and generation limits (claims C6 and C7) -/

/-- Counterexample to claim C6: on the all-hazard 1x1 board the score of
the slot is the undefined quotient `0/0` (no guard exists in
`Game.scores`), not `1.0`. -/
theorem claim_c6_counterexample :
    gameFull.mines_n 0 = ((gameFull.rows * gameFull.columns : Nat) : Int) ∧
    gameFull.scoresAt 0 = none ∧ (none : Option ℚ) ≠ some 1 := by
  refine ⟨by decide, by decide, by decide⟩

/-- Claim C6 as amended: the progress score of a slot is
`openCount / (size - mines_n)` whenever the denominator is non-zero; for
an all-hazard slot (`mines_n = size`) the division by zero is performed
unguarded and the result is undefined (numpy `nan`), modelled as `none`. -/
theorem claim_c6_scores (g : Game) (i : Nat) :
    (((g.rows * g.columns : Nat) : Int) - g.mines_n i ≠ 0 →
      g.scoresAt i = some ((g.openCount i : ℚ) /
        (((g.rows * g.columns : Nat) : Int) - g.mines_n i : Int))) ∧
    (((g.rows * g.columns : Nat) : Int) - g.mines_n i = 0 →
      g.scoresAt i = none) := by
  constructor
  · intro h
    unfold Game.scoresAt
    rw [if_neg h]
  · intro h
    unfold Game.scoresAt
    rw [if_pos h]

theorem claim_c6_scores_witness :
    gameFull.scoresAt 0 = none ∧
    gameA.scoresAt 0 = some ((gameA.openCount 0 : ℚ) /
      (((gameA.rows * gameA.columns : Nat) : Int) - gameA.mines_n 0 : Int)) :=
  ⟨(claim_c6_scores gameFull 0).2 (by decide), (claim_c6_scores gameA 0).1 (by decide)⟩

/-- Counterexample to claim C7: requesting 3 hazards on a 2-cell board
does not fail — construction succeeds and silently produces a board with
2 hazard cells, a count different from the requested one. -/
theorem claim_c7_counterexample :
    gameBad.mines_n 0 = 3 ∧ gameBad.mineCount 0 = 2 ∧ (2 : Int) ≠ 3 := by
  refine ⟨by decide, by decide, by decide⟩

/-- Claim C7 as amended: a hazard count outside `[0, rows*columns]` is
not rejected at construction/reset time; `random_binary_matrices`
silently clips the request through Python slice semantics, so the slot
receives `pySliceEnd(mines_n, size)` hazard cells (that is,
`min(mines_n, size)` for a non-negative request and `max(0, size + mines_n)`
for a negative one). -/
theorem claim_c7_clipped_count (rows columns n : Nat) (mines_n : Nat → Int)
    (perm : Nat → Nat → Nat) (i : Nat) (hp : PermOn (perm i) (rows * columns)) :
    (Game.init rows columns mines_n n perm).mineCount i
      = pySliceEnd (mines_n i) (rows * columns) :=
  mineCount_init rows columns n mines_n perm i hp

theorem claim_c7_clipped_count_witness :
    PermOn (fun k => k) (1 * 2) ∧ gameBad.mineCount 0 = pySliceEnd 3 (1 * 2) :=
  ⟨by unfold PermOn; decide,
    claim_c7_clipped_count 1 2 1 (fun _ => 3) (fun _ k => k) 0 (by unfold PermOn; decide)⟩

/-! ### Slicing shares memory (claim C8) -/

/-- Counterexample to claim C8: take a 2-slot parent whose `open_cells`
buffer is all ones, select slot `0` as `__getitem__` does
(`slice(0, 1)`, a view), and let the child clear its array in place as
`Game.reset` does (`fill(0)`).  Reading slot `0` of the *parent* now
yields `false` where it read `true` before: the parent's array did not
stay unchanged under a mutation of the returned store. -/
theorem claim_c8_counterexample :
    (parentOpen.sliceView 0 1).read bufsOnes 0 0 0 = true ∧
    parentOpen.read bufsOnes 0 0 0 = true ∧
    parentOpen.read (NpView.fill0 bufsOnes (parentOpen.sliceView 0 1)) 0 0 0 = false := by
  refine ⟨by decide, by decide, by decide⟩

/-- Claim C8 as amended: `__getitem__` with an `int` or `slice` key
returns a store whose per-cell arrays are numpy views of the parent's
buffers (basic slicing), not deep copies: the child's entry `(i, r, c)`
is the parent's entry `(min a len + i, r, c)`, and an in-place clear
through the child (as performed by `reset`) zeroes exactly those slots
of the parent, so the two stores do not evolve independently. -/
theorem claim_c8_slice_aliases (bufs : Buffers) (v : NpView) (a b i r c : Nat)
    (hi : i < (v.sliceView a b).len) :
    (v.sliceView a b).read bufs i r c = v.read bufs (min a v.len + i) r c ∧
    v.read (NpView.fill0 bufs (v.sliceView a b)) (min a v.len + i) r c = false := by
  constructor
  · show bufs v.base (v.start + min a v.len + i) r c
      = bufs v.base (v.start + (min a v.len + i)) r c
    rw [Nat.add_assoc]
  · show (if v.base = v.base ∧ v.start + min a v.len ≤ v.start + (min a v.len + i) ∧
        v.start + (min a v.len + i) < v.start + min a v.len + (v.sliceView a b).len
        then false else bufs v.base (v.start + (min a v.len + i)) r c) = false
    rw [if_pos ⟨rfl, by omega, by omega⟩]

theorem claim_c8_slice_aliases_witness :
    0 < (parentOpen.sliceView 0 1).len ∧
    ((parentOpen.sliceView 0 1).read bufsOnes 0 0 0
        = parentOpen.read bufsOnes (min 0 parentOpen.len + 0) 0 0 ∧
      parentOpen.read (NpView.fill0 bufsOnes (parentOpen.sliceView 0 1))
        (min 0 parentOpen.len + 0) 0 0 = false) :=
  ⟨by decide, claim_c8_slice_aliases bufsOnes parentOpen 0 1 0 0 0 (by decide)⟩

/-! ### Basic lemmas about the legacy cascade -/

theorem cascadeStep_cons (rows columns : Nat) (grid : Nat → Nat → Int)
    (rcall : List (Int × Int) → (Nat → Nat → Int) → Nat → Nat → Int)
    (d : Int × Int) (offs c : List (Int × Int)) (st : Nat → Nat → Int) :
    cascadeStep rows columns grid rcall (d :: offs) c st
      = cascadeStep rows columns grid rcall offs c
          (stepNext rows columns grid rcall d c st) := rfl

theorem cascadeRec_succ (rows columns : Nat) (grid : Nat → Nat → Int)
    (fuel : Nat) (c : List (Int × Int)) (st : Nat → Nat → Int) :
    cascadeRec rows columns grid (fuel + 1) c st
      = cascadeStep rows columns grid (cascadeRec rows columns grid fuel) offsets9 c st := rfl

theorem padI_in {rows columns : Nat} (f : Nat → Nat → Int) {p : Int × Int}
    (h : inPadB rows columns p) :
    padI rows columns f p = f (p.1 - 1).toNat (p.2 - 1).toNat := if_pos h

theorem padI_out {rows columns : Nat} (f : Nat → Nat → Int) {p : Int × Int}
    (h : ¬ inPadB rows columns p) : padI rows columns f p = -1 := if_neg h

theorem padI_eq_zero_bounds {rows columns : Nat} {f : Nat → Nat → Int} {p : Int × Int}
    (h : padI rows columns f p = 0) : inPadB rows columns p := by
  by_contra hb
  rw [padI_out f hb] at h
  exact absurd h (by decide)

theorem pad_pair_eta {rows columns : Nat} {p : Int × Int} (h : inPadB rows columns p) :
    ((((p.1 - 1).toNat : Nat) : Int) + 1, (((p.2 - 1).toNat : Nat) : Int) + 1) = p := by
  obtain ⟨h1, _, h3, _⟩ := h
  have e1 : (((p.1 - 1).toNat : Nat) : Int) = p.1 - 1 := Int.toNat_of_nonneg (by omega)
  have e2 : (((p.2 - 1).toNat : Nat) : Int) = p.2 - 1 := Int.toNat_of_nonneg (by omega)
  rw [e1, e2]
  ext <;> simp

theorem markOpen_shape (t : List (Int × Int)) (st : Nat → Nat → Int) (r c : Nat) :
    markOpen t st r c = st r c ∨ markOpen t st r c = 1 := by
  unfold markOpen
  split
  · exact Or.inr rfl
  · exact Or.inl rfl

theorem padI_markOpen_mem {rows columns : Nat} {t : List (Int × Int)}
    {st : Nat → Nat → Int} {q : Int × Int} (hb : inPadB rows columns q) (hq : q ∈ t) :
    padI rows columns (markOpen t st) q = 1 := by
  rw [padI_in _ hb]
  unfold markOpen
  rw [if_pos]
  rw [pad_pair_eta hb]
  exact hq

theorem padI_markOpen_not_mem {rows columns : Nat} {t : List (Int × Int)}
    {st : Nat → Nat → Int} {q : Int × Int} (hq : q ∉ t) :
    padI rows columns (markOpen t st) q = padI rows columns st q := by
  by_cases hb : inPadB rows columns q
  · rw [padI_in _ hb, padI_in _ hb]
    unfold markOpen
    rw [if_neg]
    rw [pad_pair_eta hb]
    exact hq
  · rw [padI_out _ hb, padI_out _ hb]

theorem stepNext_shape (rows columns : Nat) (grid : Nat → Nat → Int)
    {rcall : List (Int × Int) → (Nat → Nat → Int) → Nat → Nat → Int}
    (hr : ∀ zs st r c, rcall zs st r c = st r c ∨ rcall zs st r c = 1)
    (d : Int × Int) (c : List (Int × Int)) (st : Nat → Nat → Int) (r c' : Nat) :
    stepNext rows columns grid rcall d c st r c' = st r c' ∨
      stepNext rows columns grid rcall d c st r c' = 1 := by
  unfold stepNext
  split
  · exact markOpen_shape _ st r c'
  · rcases hr _ (markOpen (stepT rows columns st d c) st) r c' with h | h
    · rw [h]
      exact markOpen_shape _ st r c'
    · exact Or.inr h

theorem cascadeStep_shape (rows columns : Nat) (grid : Nat → Nat → Int)
    {rcall : List (Int × Int) → (Nat → Nat → Int) → Nat → Nat → Int}
    (hr : ∀ zs st r c, rcall zs st r c = st r c ∨ rcall zs st r c = 1)
    (offs : List (Int × Int)) (c : List (Int × Int)) :
    ∀ (st : Nat → Nat → Int) (r c' : Nat),
      cascadeStep rows columns grid rcall offs c st r c' = st r c' ∨
        cascadeStep rows columns grid rcall offs c st r c' = 1 := by
  induction offs with
  | nil => intro st r c'; exact Or.inl rfl
  | cons d offs ih =>
    intro st r c'
    rw [cascadeStep_cons]
    rcases ih (stepNext rows columns grid rcall d c st) r c' with h | h
    · rw [h]
      exact stepNext_shape rows columns grid hr d c st r c'
    · exact Or.inr h

theorem cascadeRec_shape (rows columns : Nat) (grid : Nat → Nat → Int) :
    ∀ (fuel : Nat) (c : List (Int × Int)) (st : Nat → Nat → Int) (r c' : Nat),
      cascadeRec rows columns grid fuel c st r c' = st r c' ∨
        cascadeRec rows columns grid fuel c st r c' = 1 := by
  intro fuel
  induction fuel with
  | zero => intro c st r c'; exact Or.inl rfl
  | succ f ih =>
    intro c st r c'
    rw [cascadeRec_succ]
    exact cascadeStep_shape rows columns grid (fun zs st r c => ih zs st r c) offsets9 c st r c'

theorem padI_one_mono {rows columns : Nat} {st st' : Nat → Nat → Int}
    (hshape : ∀ r c, st' r c = st r c ∨ st' r c = 1) {q : Int × Int}
    (h : padI rows columns st q = 1) : padI rows columns st' q = 1 := by
  by_cases hb : inPadB rows columns q
  · rw [padI_in _ hb] at h ⊢
    rcases hshape (q.1 - 1).toNat (q.2 - 1).toNat with he | he
    · rw [he, h]
    · exact he
  · rw [padI_out _ hb] at h
    exact absurd h (by decide)

theorem padI_zero_back {rows columns : Nat} {st st' : Nat → Nat → Int}
    (hshape : ∀ r c, st' r c = st r c ∨ st' r c = 1) {q : Int × Int}
    (h : padI rows columns st' q = 0) : padI rows columns st q = 0 := by
  by_cases hb : inPadB rows columns q
  · rw [padI_in _ hb] at h ⊢
    rcases hshape (q.1 - 1).toNat (q.2 - 1).toNat with he | he
    · rw [← he, h]
    · rw [he] at h
      exact absurd h (by decide)
  · rw [padI_out _ hb] at h
    exact absurd h (by decide)

theorem inv01_of_shape {rows columns : Nat} {st st' : Nat → Nat → Int}
    (hshape : ∀ r c, st' r c = st r c ∨ st' r c = 1)
    (h : Inv01 rows columns st) : Inv01 rows columns st' := by
  intro r hr c hc
  rcases hshape r c with he | he
  · rw [he]
    exact h r hr c hc
  · exact Or.inr he

theorem closedCount_le_of_shape {rows columns : Nat} {st st' : Nat → Nat → Int}
    (hshape : ∀ r c, st' r c = st r c ∨ st' r c = 1) :
    closedCount rows columns st' ≤ closedCount rows columns st := by
  apply Finset.card_le_card
  intro rc hrc
  obtain ⟨hmem, hz⟩ := Finset.mem_filter.mp hrc
  refine Finset.mem_filter.mpr ⟨hmem, ?_⟩
  rcases hshape rc.1 rc.2 with he | he
  · rw [← he, hz]
  · rw [he] at hz
    exact absurd hz (by decide)

theorem closedCount_markOpen_lt {rows columns : Nat} {t : List (Int × Int)}
    {st : Nat → Nat → Int} {q : Int × Int}
    (hq : padI rows columns st q = 0) (hmem : q ∈ t) :
    closedCount rows columns (markOpen t st) < closedCount rows columns st := by
  have hb : inPadB rows columns q := padI_eq_zero_bounds hq
  apply Finset.card_lt_card
  constructor
  · intro rc hrc
    obtain ⟨hmemr, hz⟩ := Finset.mem_filter.mp hrc
    refine Finset.mem_filter.mpr ⟨hmemr, ?_⟩
    rcases markOpen_shape t st rc.1 rc.2 with he | he
    · rw [← he, hz]
    · rw [he] at hz
      exact absurd hz (by decide)
  · intro hsub
    have hcell : ((q.1 - 1).toNat, (q.2 - 1).toNat)
        ∈ ((Finset.range rows) ×ˢ (Finset.range columns)).filter
          fun rc => st rc.1 rc.2 = 0 := by
      have h1 := hb.1
      have h2 := hb.2.1
      have h3 := hb.2.2.1
      have h4 := hb.2.2.2
      refine Finset.mem_filter.mpr ⟨Finset.mem_product.mpr
        ⟨Finset.mem_range.mpr (by omega), Finset.mem_range.mpr (by omega)⟩, ?_⟩
      rw [padI_in _ hb] at hq
      exact hq
    have hcell' := hsub hcell
    obtain ⟨_, hz⟩ := Finset.mem_filter.mp hcell'
    have hone : markOpen t st (q.1 - 1).toNat (q.2 - 1).toNat = 1 := by
      have := @padI_markOpen_mem rows columns t st q hb hmem
      rw [padI_in _ hb] at this
      exact this
    rw [hone] at hz
    exact absurd hz (by decide)

theorem offsets9_bounds {d : Int × Int} (hd : d ∈ offsets9) :
    -1 ≤ d.1 ∧ d.1 ≤ 1 ∧ -1 ≤ d.2 ∧ d.2 ≤ 1 := by
  fin_cases hd <;> exact ⟨by decide, by decide, by decide, by decide⟩

theorem zAdj_shift (p : Int × Int) {d : Int × Int} (hd : d ∈ offsets9) :
    zAdj p (p.1 + d.1, p.2 + d.2) := by
  obtain ⟨h1, h2, h3, h4⟩ := offsets9_bounds hd
  unfold zAdj
  dsimp only
  exact ⟨by omega, by omega, by omega, by omega⟩

theorem zAdj_to_offset {z q : Int × Int} (h : zAdj z q) :
    (q.1 - z.1, q.2 - z.2) ∈ offsets9 ∧ (z.1 + (q.1 - z.1), z.2 + (q.2 - z.2)) = q := by
  obtain ⟨h1, h2, h3, h4⟩ := h
  constructor
  · simp only [offsets9, List.mem_cons, List.not_mem_nil, or_false, Prod.mk.injEq]
    omega
  · rw [Prod.ext_iff]
    exact ⟨by dsimp only; ring, by dsimp only; ring⟩

theorem stepNext_eq (rows columns : Nat) (grid : Nat → Nat → Int)
    (rcall : List (Int × Int) → (Nat → Nat → Int) → Nat → Nat → Int)
    (d : Int × Int) (c : List (Int × Int)) (st : Nat → Nat → Int) :
    stepNext rows columns grid rcall d c st
      = if ((stepT rows columns st d c).filter fun p =>
            decide (padI rows columns grid p = 0)).isEmpty
        then markOpen (stepT rows columns st d c) st
        else rcall ((stepT rows columns st d c).filter fun p =>
            decide (padI rows columns grid p = 0))
          (markOpen (stepT rows columns st d c) st) := rfl

theorem stepNext_opens (rows columns : Nat) (grid : Nat → Nat → Int)
    {rcall : List (Int × Int) → (Nat → Nat → Int) → Nat → Nat → Int}
    (hr : ∀ zs st r c, rcall zs st r c = st r c ∨ rcall zs st r c = 1)
    {d : Int × Int} {c : List (Int × Int)} {st : Nat → Nat → Int} {p : Int × Int}
    (hp : p ∈ c) (hinv : Inv01 rows columns st)
    (hb : inPadB rows columns (p.1 + d.1, p.2 + d.2)) :
    padI rows columns (stepNext rows columns grid rcall d c st) (p.1 + d.1, p.2 + d.2) = 1 := by
  set q : Int × Int := (p.1 + d.1, p.2 + d.2) with hqdef
  by_cases h0 : padI rows columns st q = 0
  · have hqt : q ∈ stepT rows columns st d c := by
      unfold stepT
      refine List.mem_filter.mpr ⟨List.mem_map.mpr ⟨p, hp, rfl⟩, by simp [h0]⟩
    have h1 : padI rows columns (markOpen (stepT rows columns st d c) st) q = 1 :=
      padI_markOpen_mem hb hqt
    rw [stepNext_eq]
    split
    · exact h1
    · exact padI_one_mono (fun r c' => hr _ _ r c') h1
  · have h1 : padI rows columns st q = 1 := by
      rw [padI_in _ hb] at h0 ⊢
      have hbr : (q.1 - 1).toNat < rows := by
        have := hb.1
        have := hb.2.1
        omega
      have hbc : (q.2 - 1).toNat < columns := by
        have := hb.2.2.1
        have := hb.2.2.2
        omega
      rcases hinv (q.1 - 1).toNat hbr (q.2 - 1).toNat hbc with hz | ho
      · exact absurd hz h0
      · exact ho
    have hqt : q ∉ stepT rows columns st d c := by
      unfold stepT
      intro hmem
      have hpred := (List.mem_filter.mp hmem).2
      simp only [decide_eq_true_eq] at hpred
      exact h0 hpred
    rw [stepNext_eq]
    split
    · rw [padI_markOpen_not_mem hqt]
      exact h1
    · apply padI_one_mono (fun r c' => hr _ _ r c')
      rw [padI_markOpen_not_mem hqt]
      exact h1

theorem cascadeStep_opens (rows columns : Nat) (grid : Nat → Nat → Int)
    {rcall : List (Int × Int) → (Nat → Nat → Int) → Nat → Nat → Int}
    (hr : ∀ zs st r c, rcall zs st r c = st r c ∨ rcall zs st r c = 1)
    (c : List (Int × Int)) {p : Int × Int} (hp : p ∈ c) :
    ∀ (offs : List (Int × Int)) (st : Nat → Nat → Int), Inv01 rows columns st →
      ∀ d ∈ offs, inPadB rows columns (p.1 + d.1, p.2 + d.2) →
        padI rows columns (cascadeStep rows columns grid rcall offs c st)
          (p.1 + d.1, p.2 + d.2) = 1 := by
  intro offs
  induction offs with
  | nil =>
    intro st _ d hd
    exact absurd hd (List.not_mem_nil d)
  | cons d0 offs ih =>
    intro st hinv d hd hb
    rw [cascadeStep_cons]
    rcases List.mem_cons.mp hd with heq | hd'
    · subst heq
      exact padI_one_mono
        (fun r c' => cascadeStep_shape rows columns grid hr offs c _ r c')
        (stepNext_opens rows columns grid hr hp hinv hb)
    · exact ih (stepNext rows columns grid rcall d0 c st)
        (inv01_of_shape (fun r c' => stepNext_shape rows columns grid hr d0 c st r c') hinv)
        d hd' hb

theorem cascadeRec_opens (rows columns : Nat) (grid : Nat → Nat → Int)
    (fuel : Nat) (hfuel : 1 ≤ fuel) {c : List (Int × Int)} {p : Int × Int} (hp : p ∈ c)
    {st : Nat → Nat → Int} (hinv : Inv01 rows columns st)
    {d : Int × Int} (hd : d ∈ offsets9) (hb : inPadB rows columns (p.1 + d.1, p.2 + d.2)) :
    padI rows columns (cascadeRec rows columns grid fuel c st) (p.1 + d.1, p.2 + d.2) = 1 := by
  obtain ⟨f, rfl⟩ : ∃ f, fuel = f + 1 := ⟨fuel - 1, by omega⟩
  rw [cascadeRec_succ]
  exact cascadeStep_opens rows columns grid
    (fun zs st r c => cascadeRec_shape rows columns grid f zs st r c) c hp offsets9 st hinv d hd hb

theorem cascadeStep_K (rows columns : Nat) (grid : Nat → Nat → Int)
    {rcall : List (Int × Int) → (Nat → Nat → Int) → Nat → Nat → Int} (fuelR : Nat)
    (hr_shape : ∀ zs st r c, rcall zs st r c = st r c ∨ rcall zs st r c = 1)
    (hr_K : ∀ zs st, closedCount rows columns st < fuelR → Inv01 rows columns st →
        ∀ q, padI rows columns st q = 0 → padI rows columns grid q = 0 →
          padI rows columns (rcall zs st) q = 1 →
          ∀ d ∈ offsets9, inPadB rows columns (q.1 + d.1, q.2 + d.2) →
            padI rows columns (rcall zs st) (q.1 + d.1, q.2 + d.2) = 1)
    (hr_P1 : ∀ zs st, closedCount rows columns st < fuelR → Inv01 rows columns st →
        ∀ p ∈ zs, ∀ d ∈ offsets9, inPadB rows columns (p.1 + d.1, p.2 + d.2) →
          padI rows columns (rcall zs st) (p.1 + d.1, p.2 + d.2) = 1)
    (c : List (Int × Int)) :
    ∀ (offs : List (Int × Int)) (st : Nat → Nat → Int),
      closedCount rows columns st ≤ fuelR → Inv01 rows columns st →
      ∀ q, padI rows columns st q = 0 → padI rows columns grid q = 0 →
        padI rows columns (cascadeStep rows columns grid rcall offs c st) q = 1 →
        ∀ d ∈ offsets9, inPadB rows columns (q.1 + d.1, q.2 + d.2) →
          padI rows columns (cascadeStep rows columns grid rcall offs c st)
            (q.1 + d.1, q.2 + d.2) = 1 := by
  intro offs
  induction offs with
  | nil =>
    intro st _ _ q h0 _ hres d hd hb
    have hnil : cascadeStep rows columns grid rcall [] c st = st := rfl
    rw [hnil, h0] at hres
    exact absurd hres (by decide)
  | cons d0 offs ih =>
    intro st hcc hinv q h0 hg hres d hd hb
    rw [cascadeStep_cons] at hres ⊢
    have hshape2 : ∀ r c', stepNext rows columns grid rcall d0 c st r c' = st r c' ∨
        stepNext rows columns grid rcall d0 c st r c' = 1 :=
      fun r c' => stepNext_shape rows columns grid hr_shape d0 c st r c'
    have hinv2 : Inv01 rows columns (stepNext rows columns grid rcall d0 c st) :=
      inv01_of_shape hshape2 hinv
    have hcc2 : closedCount rows columns (stepNext rows columns grid rcall d0 c st)
        ≤ closedCount rows columns st := closedCount_le_of_shape hshape2
    by_cases h2 : padI rows columns (stepNext rows columns grid rcall d0 c st) q = 0
    · exact ih (stepNext rows columns grid rcall d0 c st)
        (le_trans hcc2 hcc) hinv2 q h2 hg hres d hd hb
    · have hinv1 : Inv01 rows columns (markOpen (stepT rows columns st d0 c) st) :=
        inv01_of_shape (markOpen_shape _ st) hinv
      have hN : ∀ d' ∈ offsets9, inPadB rows columns (q.1 + d'.1, q.2 + d'.2) →
          padI rows columns (stepNext rows columns grid rcall d0 c st)
            (q.1 + d'.1, q.2 + d'.2) = 1 := by
        by_cases hqt : q ∈ stepT rows columns st d0 c
        · have hqz : q ∈ (stepT rows columns st d0 c).filter
              fun p => decide (padI rows columns grid p = 0) :=
            List.mem_filter.mpr ⟨hqt, by simp [hg]⟩
          have hze : ((stepT rows columns st d0 c).filter
              fun p => decide (padI rows columns grid p = 0)).isEmpty = false := by
            rcases hx : ((stepT rows columns st d0 c).filter
                fun p => decide (padI rows columns grid p = 0)).isEmpty with _ | _
            · rfl
            · rw [List.isEmpty_iff] at hx
              rw [hx] at hqz
              exact absurd hqz (List.not_mem_nil q)
          have hcc1 : closedCount rows columns (markOpen (stepT rows columns st d0 c) st)
              < fuelR :=
            lt_of_lt_of_le (closedCount_markOpen_lt h0 hqt) hcc
          intro d' hd' hb'
          rw [stepNext_eq, if_neg (by rw [hze]; decide)]
          exact hr_P1 _ _ hcc1 hinv1 q hqz d' hd' hb'
        · have h1q : padI rows columns (markOpen (stepT rows columns st d0 c) st) q
              = padI rows columns st q := padI_markOpen_not_mem hqt
          by_cases hze : ((stepT rows columns st d0 c).filter
              fun p => decide (padI rows columns grid p = 0)).isEmpty = true
          · exfalso
            apply h2
            rw [stepNext_eq, if_pos hze, h1q, h0]
          · have hq2 : padI rows columns (stepNext rows columns grid rcall d0 c st) q = 1 := by
              have hbq : inPadB rows columns q := padI_eq_zero_bounds h0
              rcases hshape2 (q.1 - 1).toNat (q.2 - 1).toNat with he | he
              · exfalso
                apply h2
                rw [padI_in _ hbq, he]
                rw [padI_in _ hbq] at h0
                exact h0
              · rw [padI_in _ hbq]
                exact he
            have hcc1 : closedCount rows columns (markOpen (stepT rows columns st d0 c) st)
                < fuelR := by
              have hne : ((stepT rows columns st d0 c).filter
                  fun p => decide (padI rows columns grid p = 0)) ≠ [] := by
                intro hnil
                rw [← List.isEmpty_iff] at hnil
                exact hze hnil
              obtain ⟨x, hx⟩ := List.exists_mem_of_ne_nil _ hne
              have hxt : x ∈ stepT rows columns st d0 c := (List.mem_filter.mp hx).1
              have hx0 : padI rows columns st x = 0 := by
                have := (List.mem_filter.mp (by
                  show x ∈ (c.map fun p => (p.1 + d0.1, p.2 + d0.2)).filter
                    fun p => decide (padI rows columns st p = 0)
                  exact hxt)).2
                simpa using this
              exact lt_of_lt_of_le (closedCount_markOpen_lt hx0 hxt) hcc
            have hst2' : stepNext rows columns grid rcall d0 c st
                = rcall ((stepT rows columns st d0 c).filter
                    fun p => decide (padI rows columns grid p = 0))
                  (markOpen (stepT rows columns st d0 c) st) := by
              rw [stepNext_eq, if_neg hze]
            rw [hst2'] at hq2
            intro d' hd' hb'
            rw [hst2']
            exact hr_K _ _ hcc1 hinv1 q (by rw [h1q]; exact h0) hg hq2 d' hd' hb'
      exact padI_one_mono
        (fun r c' => cascadeStep_shape rows columns grid hr_shape offs c
          (stepNext rows columns grid rcall d0 c st) r c')
        (hN d hd hb)

theorem cascadeRec_K (rows columns : Nat) (grid : Nat → Nat → Int) :
    ∀ (fuel : Nat) (c : List (Int × Int)) (st : Nat → Nat → Int),
      closedCount rows columns st < fuel → Inv01 rows columns st →
      ∀ q, padI rows columns st q = 0 → padI rows columns grid q = 0 →
        padI rows columns (cascadeRec rows columns grid fuel c st) q = 1 →
        ∀ d ∈ offsets9, inPadB rows columns (q.1 + d.1, q.2 + d.2) →
          padI rows columns (cascadeRec rows columns grid fuel c st)
            (q.1 + d.1, q.2 + d.2) = 1 := by
  intro fuel
  induction fuel with
  | zero =>
    intro c st hcc
    exact absurd hcc (by omega)
  | succ f ih =>
    intro c st hcc hinv q h0 hg hres d hd hb
    rw [cascadeRec_succ] at hres ⊢
    refine cascadeStep_K rows columns grid f
      (fun zs st r c => cascadeRec_shape rows columns grid f zs st r c)
      (fun zs st h1 h2 => ih zs st h1 h2)
      (fun zs st h1 h2 p hp d' hd' hb' =>
        cascadeRec_opens rows columns grid f (by omega) hp h2 hd' hb')
      c offsets9 st (by omega) hinv q h0 hg hres d hd hb

theorem mem_stepT_src {rows columns : Nat} {st : Nat → Nat → Int} {d : Int × Int}
    {c : List (Int × Int)} {q : Int × Int} (h : q ∈ stepT rows columns st d c) :
    ∃ p ∈ c, q = (p.1 + d.1, p.2 + d.2) := by
  have hmap := (List.mem_filter.mp h).1
  obtain ⟨p, hp, he⟩ := List.mem_map.mp hmap
  exact ⟨p, hp, he.symm⟩

theorem cascadeStep_sound (rows columns : Nat) (grid : Nat → Nat → Int) (s : Int × Int)
    {rcall : List (Int × Int) → (Nat → Nat → Int) → Nat → Nat → Int}
    (hr_sound : ∀ zs st, (∀ p ∈ zs, ZPath rows columns grid s p) →
        (∀ q, padI rows columns st q = 1 → ∃ z, ZPath rows columns grid s z ∧ zAdj z q) →
        ∀ q, padI rows columns (rcall zs st) q = 1 →
          ∃ z, ZPath rows columns grid s z ∧ zAdj z q)
    (c : List (Int × Int)) (hc : ∀ p ∈ c, ZPath rows columns grid s p) :
    ∀ (offs : List (Int × Int)), (∀ d ∈ offs, d ∈ offsets9) →
      ∀ st, (∀ q, padI rows columns st q = 1 → ∃ z, ZPath rows columns grid s z ∧ zAdj z q) →
      ∀ q, padI rows columns (cascadeStep rows columns grid rcall offs c st) q = 1 →
        ∃ z, ZPath rows columns grid s z ∧ zAdj z q := by
  intro offs
  induction offs with
  | nil =>
    intro _ st hexpl q hq
    exact hexpl q hq
  | cons d0 offs ih =>
    intro hoffs st hexpl q hq
    rw [cascadeStep_cons] at hq
    have hd0 : d0 ∈ offsets9 := hoffs d0 (List.mem_cons_self d0 offs)
    have hexpl1 : ∀ q', padI rows columns (markOpen (stepT rows columns st d0 c) st) q' = 1 →
        ∃ z, ZPath rows columns grid s z ∧ zAdj z q' := by
      intro q' hq'
      by_cases hmem : q' ∈ stepT rows columns st d0 c
      · obtain ⟨p, hp, rfl⟩ := mem_stepT_src hmem
        exact ⟨p, hc p hp, zAdj_shift p hd0⟩
      · rw [padI_markOpen_not_mem hmem] at hq'
        exact hexpl q' hq'
    have hzs : ∀ p' ∈ (stepT rows columns st d0 c).filter
        (fun p => decide (padI rows columns grid p = 0)), ZPath rows columns grid s p' := by
      intro p' hp'
      have hpt := (List.mem_filter.mp hp').1
      have hpz : padI rows columns grid p' = 0 := by
        have := (List.mem_filter.mp hp').2
        simpa using this
      obtain ⟨p, hp, rfl⟩ := mem_stepT_src hpt
      exact ZPath.step (hc p hp) hpz (zAdj_shift p hd0)
    have hexpl2 : ∀ q', padI rows columns (stepNext rows columns grid rcall d0 c st) q' = 1 →
        ∃ z, ZPath rows columns grid s z ∧ zAdj z q' := by
      intro q' hq'
      rw [stepNext_eq] at hq'
      split at hq'
      · exact hexpl1 q' hq'
      · exact hr_sound _ _ hzs hexpl1 q' hq'
    exact ih (fun d hd => hoffs d (List.mem_cons_of_mem d0 hd))
      (stepNext rows columns grid rcall d0 c st) hexpl2 q hq

theorem cascadeRec_sound (rows columns : Nat) (grid : Nat → Nat → Int) (s : Int × Int) :
    ∀ (fuel : Nat) (c : List (Int × Int)) (st : Nat → Nat → Int),
      (∀ p ∈ c, ZPath rows columns grid s p) →
      (∀ q, padI rows columns st q = 1 → ∃ z, ZPath rows columns grid s z ∧ zAdj z q) →
      ∀ q, padI rows columns (cascadeRec rows columns grid fuel c st) q = 1 →
        ∃ z, ZPath rows columns grid s z ∧ zAdj z q := by
  intro fuel
  induction fuel with
  | zero =>
    intro c st _ hexpl q hq
    exact hexpl q hq
  | succ f ih =>
    intro c st hc hexpl q hq
    rw [cascadeRec_succ] at hq
    exact cascadeStep_sound rows columns grid s
      (fun zs st hzs hexpl' => ih zs st hzs hexpl')
      c hc offsets9 (fun d hd => hd) st hexpl q hq

theorem cascade_reach_open (rows columns : Nat) (grid : Nat → Nat → Int)
    {st0 : Nat → Nat → Int} (hfresh : FreshState rows columns st0)
    {s : Int × Int} :
    ∀ z, ZPath rows columns grid s z →
      ∀ d ∈ offsets9, inPadB rows columns (z.1 + d.1, z.2 + d.2) →
        padI rows columns (cascadeFrom rows columns grid s st0) (z.1 + d.1, z.2 + d.2) = 1 := by
  have hinv0 : Inv01 rows columns st0 := fun r hr c hc => Or.inl (hfresh r hr c hc)
  have hcc : closedCount rows columns st0 < rows * columns + 1 := by
    have hle : closedCount rows columns st0 ≤ rows * columns := by
      unfold closedCount
      calc (((Finset.range rows) ×ˢ (Finset.range columns)).filter
            fun rc => st0 rc.1 rc.2 = 0).card
          ≤ ((Finset.range rows) ×ˢ (Finset.range columns)).card :=
            Finset.card_filter_le _ _
        _ = rows * columns := by
            rw [Finset.card_product, Finset.card_range, Finset.card_range]
    omega
  intro z hz
  induction hz with
  | base hs0 =>
    intro d hd hb
    exact cascadeRec_opens rows columns grid (rows * columns + 1) (by omega)
      (List.mem_singleton.mpr rfl) hinv0 hd hb
  | @step q q' hpath hgz hadj ih =>
    obtain ⟨hdmem, hqe⟩ := zAdj_to_offset hadj
    have hb' : inPadB rows columns q' := padI_eq_zero_bounds hgz
    have hopen : padI rows columns (cascadeFrom rows columns grid s st0) q' = 1 := by
      have h := ih (q'.1 - q.1, q'.2 - q.2) hdmem (by
        show inPadB rows columns (q.1 + (q'.1 - q.1), q.2 + (q'.2 - q.2))
        rw [hqe]
        exact hb')
      rw [hqe] at h
      exact h
    have h0 : padI rows columns st0 q' = 0 := by
      rw [padI_in _ hb']
      apply hfresh
      · have := hb'.1
        have := hb'.2.1
        omega
      · have := hb'.2.2.1
        have := hb'.2.2.2
        omega
    intro d hd hb
    exact cascadeRec_K rows columns grid (rows * columns + 1) [s] st0 hcc hinv0
      q' h0 hgz hopen d hd hb

/-- Counterexample to claim C4: on a hazard-free 3x3 board whose middle
column is already revealed, the legacy cascade started at the zero cell
`(0,0)` (padded `(1,1)`) leaves the zero cell `(0,2)` (padded `(1,3)`)
unrevealed, although it is 8-connected to the start through zero cells —
already-revealed zeros are never re-queued, so they block propagation. -/
theorem claim_c4_counterexample :
    ZPath 3 3 gridZero3 (1, 1) (1, 3) ∧
    cascadeFrom 3 3 gridZero3 (1, 1) stMidCol 0 2 = 0 := by
  constructor
  · have h1 : padI 3 3 gridZero3 (1, 1) = 0 := by decide
    have h2 : padI 3 3 gridZero3 (1, 2) = 0 := by decide
    have h3 : padI 3 3 gridZero3 (1, 3) = 0 := by decide
    exact ZPath.step (ZPath.step (ZPath.base h1) h2 (by unfold zAdj; decide)) h3
      (by unfold zAdj; decide)
  · decide

/-- Claim C4 as amended: one invocation of the legacy recursive cascade
(root-level `game.py` `open_zero`), started from a zero-valued cell of a
slot on which no cell is revealed yet, reveals exactly the maximal
region consisting of the zero cells 8-connected to the start through
zero cells together with all their in-board neighbours (the bordering
ring of numbered cells): a board cell ends up revealed iff it is
8-adjacent to (or is itself) such a reachable zero cell.  In particular
every zero cell 8-connected to the start through zero cells is revealed,
and numbered cells are revealed but do not propagate further. -/
theorem claim_c4_cascade_region (rows columns : Nat) (grid : Nat → Nat → Int)
    (st0 : Nat → Nat → Int) (s : Int × Int)
    (hfresh : FreshState rows columns st0) (hs : padI rows columns grid s = 0) :
    ∀ r < rows, ∀ c < columns,
      (cascadeFrom rows columns grid s st0 r c = 1 ↔
        ∃ z, ZPath rows columns grid s z ∧ zAdj z ((r : Int) + 1, (c : Int) + 1)) := by
  intro r hr c hc
  have hbq : inPadB rows columns ((r : Int) + 1, (c : Int) + 1) := by
    refine ⟨?_, ?_, ?_, ?_⟩ <;> dsimp only <;> omega
  have hbase1 : ((r : Int) + 1 - 1).toNat = r := by omega
  have hbase2 : ((c : Int) + 1 - 1).toNat = c := by omega
  constructor
  · intro h1
    have hexpl0 : ∀ q, padI rows columns st0 q = 1 →
        ∃ z, ZPath rows columns grid s z ∧ zAdj z q := by
      intro q hq
      have hbq' : inPadB rows columns q := by
        by_contra hnb
        rw [padI_out _ hnb] at hq
        exact absurd hq (by decide)
      rw [padI_in _ hbq'] at hq
      have h0 := hfresh (q.1 - 1).toNat
        (by
          have := hbq'.1
          have := hbq'.2.1
          omega)
        (q.2 - 1).toNat
        (by
          have := hbq'.2.2.1
          have := hbq'.2.2.2
          omega)
      rw [h0] at hq
      exact absurd hq (by decide)
    have hpadF : padI rows columns (cascadeFrom rows columns grid s st0)
        ((r : Int) + 1, (c : Int) + 1) = 1 := by
      rw [padI_in _ hbq]
      dsimp only
      rw [hbase1, hbase2]
      exact h1
    exact cascadeRec_sound rows columns grid s (rows * columns + 1) [s] st0
      (fun p hp => by rw [List.mem_singleton.mp hp]; exact ZPath.base hs)
      hexpl0 _ hpadF
  · rintro ⟨z, hz, hadj⟩
    obtain ⟨hdmem, hqe⟩ := zAdj_to_offset hadj
    have h := cascade_reach_open rows columns grid hfresh z hz
      (((r : Int) + 1) - z.1, ((c : Int) + 1) - z.2) hdmem
      (by
        show inPadB rows columns
          (z.1 + (((r : Int) + 1) - z.1), z.2 + (((c : Int) + 1) - z.2))
        rw [hqe]
        exact hbq)
    rw [hqe] at h
    rw [padI_in _ hbq] at h
    dsimp only at h
    rw [hbase1, hbase2] at h
    exact h

theorem claim_c4_cascade_region_witness :
    FreshState 1 1 stZero3 ∧ padI 1 1 gridZero3 (1, 1) = 0 ∧
    (∀ r < 1, ∀ c < 1,
      (cascadeFrom 1 1 gridZero3 (1, 1) stZero3 r c = 1 ↔
        ∃ z, ZPath 1 1 gridZero3 (1, 1) z ∧ zAdj z ((r : Int) + 1, (c : Int) + 1))) :=
  ⟨by unfold FreshState; decide, by decide,
    claim_c4_cascade_region 1 1 gridZero3 stZero3 (1, 1)
      (by unfold FreshState; decide) (by decide)⟩
